import Mathlib

/-!
Verification of nvim_upgrade (src/main.rs): a shallow embedding of the
version store, release-feed client, installer and update orchestrator,
together with proofs of the specified properties.

Machine strings are modelled as `List Char`; filesystem and network
effects are modelled by explicit state passing and by environment
parameters carrying the outcomes of the external calls.
-/

namespace NvimUpgrade

/-- ASCII decimal digit test (as in semver numeric identifiers). -/
def isDigit (c : Char) : Bool := 48 ≤ c.toNat && c.toNat ≤ 57

/-- ASCII lowercase letter test. -/
def isLower (c : Char) : Bool := 97 ≤ c.toNat && c.toNat ≤ 122

/-- ASCII uppercase letter test. -/
def isUpper (c : Char) : Bool := 65 ≤ c.toNat && c.toNat ≤ 90

/-- ASCII letter test. -/
def isAlpha (c : Char) : Bool := isLower c || isUpper c

/-- Characters allowed in semver pre-release and build identifiers. -/
def isIdentChar (c : Char) : Bool := isDigit c || isAlpha c || c = '-'

/-- The decimal digit character for a value below ten. -/
def digitChar (d : Nat) : Char := Char.ofNat (48 + d)

/-- Fuel-driven rendering of a positive number, most significant digit first. -/
def natToCharsAux : Nat → Nat → List Char
  | 0, _ => []
  | f + 1, n => if n = 0 then [] else natToCharsAux f (n / 10) ++ [digitChar (n % 10)]

/-- Decimal rendering of a natural number (as the semver crate prints numbers). -/
def natToChars (n : Nat) : List Char := if n = 0 then [digitChar 0] else natToCharsAux n n

/-- Numeric value of a list of decimal digit characters. -/
def charsVal (cs : List Char) : Nat := cs.foldl (fun a c => 10 * a + (c.toNat - 48)) 0

/-- Parse a semver numeric identifier: nonempty, all digits, no leading zero. -/
def parseNum (cs : List Char) : Option Nat :=
  if cs ≠ [] ∧ cs.all isDigit = true ∧ (cs.head? = some '0' → cs = ['0'])
  then some (charsVal cs) else none

example : parseNum (natToChars 120) = some 120 := by decide
example : (("ab").data) = ['a', 'b'] := by decide
example : digitChar 3 = '3' := by decide

/-- Split a character list at every occurrence of `c`, keeping empty pieces,
as Rust `str::split(char)` does. -/
def splitOnChar (c : Char) : List Char → List (List Char)
  | [] => [[]]
  | x :: xs =>
    match splitOnChar c xs with
    | [] => [[]]
    | h :: t => if x = c then [] :: h :: t else (x :: h) :: t

/-- Split at the first occurrence of `c`: the part before it, and — when `c`
occurs — the part after it. -/
def breakOnChar (c : Char) : List Char → List Char × Option (List Char)
  | [] => ([], none)
  | x :: xs =>
    if x = c then ([], some xs)
    else
      match breakOnChar c xs with
      | (a, b) => (x :: a, b)

/-- Join pieces with the separator character between consecutive pieces. -/
def joinSep (c : Char) : List (List Char) → List Char
  | [] => []
  | [x] => x
  | x :: y :: r => x ++ c :: joinSep c (y :: r)

/-- Map a fallible function over a list, succeeding only if every element does. -/
def mapOpt (f : α → Option β) : List α → Option (List β)
  | [] => some []
  | x :: xs =>
    match f x, mapOpt f xs with
    | some y, some ys => some (y :: ys)
    | _, _ => none

/-- A semver pre-release identifier: numeric, or alphanumeric-with-hyphens
(as in the semver crate used by the program). -/
inductive PreId
  | num : Nat → PreId
  | alpha : List Char → PreId
deriving DecidableEq

/-- A semantic version, as represented by the semver crate: numeric triple,
pre-release identifiers and build metadata identifiers. -/
structure Version where
  major : Nat
  minor : Nat
  patch : Nat
  pre : List PreId
  build : List (List Char)
deriving DecidableEq

/-- Well-formedness of a pre-release identifier: an alphanumeric identifier is
nonempty, uses only identifier characters and is not all digits (an all-digit
identifier is stored numerically by the parser). -/
def PreId.validb : PreId → Bool
  | .num _ => true
  | .alpha s => !s.isEmpty && s.all isIdentChar && !(s.all isDigit)

/-- Well-formedness of a version value: every stored identifier is one the
parser could have produced. -/
def Version.validb (v : Version) : Bool :=
  v.pre.all PreId.validb && v.build.all (fun s => !s.isEmpty && s.all isIdentChar)

/-- Render a pre-release identifier back to text. -/
def renderPreId : PreId → List Char
  | .num n => natToChars n
  | .alpha s => s

/-- The pre-release suffix of a rendered version: nothing, or a hyphen and
the dotted identifiers. -/
def renderPre : List PreId → List Char
  | [] => []
  | p :: ps => '-' :: joinSep '.' ((p :: ps).map renderPreId)

/-- The build-metadata suffix of a rendered version: nothing, or a plus sign
and the dotted identifiers. -/
def renderBuild : List (List Char) → List Char
  | [] => []
  | b :: bs => '+' :: joinSep '.' (b :: bs)

/-- Canonical textual form of a version, as the semver crate's `Display`
(and hence `to_string`) prints it: the dotted numeric triple, then the
pre-release suffix, then the build suffix. -/
def renderVersion (v : Version) : List Char :=
  joinSep '.' [natToChars v.major, natToChars v.minor, natToChars v.patch]
    ++ renderPre v.pre ++ renderBuild v.build

/-- Parse a single pre-release identifier. -/
def parsePreId (cs : List Char) : Option PreId :=
  if cs ≠ [] ∧ cs.all isIdentChar = true then
    if cs.all isDigit = true then (parseNum cs).map PreId.num
    else some (PreId.alpha cs)
  else none

/-- Parse a single build identifier: build metadata may carry leading zeros. -/
def parseBuildId (cs : List Char) : Option (List Char) :=
  if cs ≠ [] ∧ cs.all isIdentChar = true then some cs else none

/-- Parse the dotted numeric `major.minor.patch` core of a version. -/
def parseCore (core : List Char) : Option (Nat × Nat × Nat) :=
  match splitOnChar '.' core with
  | [ma, mi, pa] =>
    match parseNum ma, parseNum mi, parseNum pa with
    | some a, some b, some c => some (a, b, c)
    | _, _, _ => none
  | _ => none

/-- Parse the optional pre-release part (text after the first hyphen). -/
def parsePre : Option (List Char) → Option (List PreId)
  | none => some []
  | some p => mapOpt parsePreId (splitOnChar '.' p)

/-- Parse the optional build-metadata part (text after the plus sign). -/
def parseBuild : Option (List Char) → Option (List (List Char))
  | none => some []
  | some b => mapOpt parseBuildId (splitOnChar '.' b)

/-- Parse a semantic version string, modelling `semver::Version::parse`:
`major.minor.patch`, optionally `-pre` (which may itself contain hyphens) and
optionally `+build`; numeric components reject leading zeros. -/
def parseVersion (cs : List Char) : Option Version :=
  match parseCore (breakOnChar '-' (breakOnChar '+' cs).1).1,
      parsePre (breakOnChar '-' (breakOnChar '+' cs).1).2,
      parseBuild (breakOnChar '+' cs).2 with
  | some (a, b, c), some pre, some build => some ⟨a, b, c, pre, build⟩
  | _, _, _ => none

example : parseVersion (("1.2.3").data) = some ⟨1, 2, 3, [], []⟩ := by decide
example : parseVersion (("0.10.4-rc.1+001").data)
    = some ⟨0, 10, 4, [PreId.alpha ['r', 'c'], PreId.num 1], [['0', '0', '1']]⟩ := by decide
example : parseVersion (("01.2.3").data) = none := by decide
example : parseVersion (("1.2.3-").data) = none := by decide
example : parseVersion (("1.2").data) = none := by decide
example : parseVersion (renderVersion ⟨1, 20, 3, [PreId.alpha ['a', '-', 'b']], [['0', '7']]⟩)
    = some ⟨1, 20, 3, [PreId.alpha ['a', '-', 'b']], [['0', '7']]⟩ := by decide

/-- Lexicographic comparison of character lists by code point. -/
def cmpChars : List Char → List Char → Ordering
  | [], [] => .eq
  | [], _ :: _ => .lt
  | _ :: _, [] => .gt
  | a :: as, b :: bs => (compare a.toNat b.toNat).then (cmpChars as bs)

/-- Semver precedence on single pre-release identifiers: numeric identifiers
compare numerically and sort below alphanumeric ones. -/
def cmpPreId : PreId → PreId → Ordering
  | .num a, .num b => compare a b
  | .num _, .alpha _ => .lt
  | .alpha _, .num _ => .gt
  | .alpha a, .alpha b => cmpChars a b

/-- Elementwise list comparison; a strict prefix sorts first. -/
def cmpList (f : α → α → Ordering) : List α → List α → Ordering
  | [], [] => .eq
  | [], _ :: _ => .lt
  | _ :: _, [] => .gt
  | a :: as, b :: bs => (f a b).then (cmpList f as bs)

/-- Semver precedence on pre-release lists: a version without pre-release
sorts above any pre-release of the same triple. -/
def cmpPre : List PreId → List PreId → Ordering
  | [], [] => .eq
  | [], _ :: _ => .gt
  | _ :: _, [] => .lt
  | a, b => cmpList cmpPreId a b

/-- Drop leading zero characters, as `trim_start_matches('0')` does. -/
def trimZeros (l : List Char) : List Char := l.dropWhile (fun c => c = '0')

/-- Comparison of single build identifiers, modelling the semver crate's
`Ord for BuildMetadata`: two all-digit identifiers compare by numeric
magnitude — leading zeros trimmed, then length of the trimmed digits, then
the trimmed digits lexically — with the raw length (the count of leading
zeros) as the final tie-break, so that `0 < 00 < 1 < 01 < 001 < 2 < 02 <
002 < 10`; an all-digit identifier sorts below one containing letters, and
two non-numeric identifiers compare lexically. -/
def cmpBuildId (a b : List Char) : Ordering :=
  if a.all isDigit && b.all isDigit then
    ((compare (trimZeros a).length (trimZeros b).length).then
      (cmpChars (trimZeros a) (trimZeros b))).then (compare a.length b.length)
  else if a.all isDigit then .lt
  else if b.all isDigit then .gt
  else cmpChars a b

example : cmpBuildId ['0'] ['0', '0'] = .lt := by decide
example : cmpBuildId ['0', '0'] ['1'] = .lt := by decide
example : cmpBuildId ['1'] ['0', '1'] = .lt := by decide
example : cmpBuildId ['0', '1'] ['0', '0', '1'] = .lt := by decide
example : cmpBuildId ['0', '0', '1'] ['2'] = .lt := by decide
example : cmpBuildId ['2'] ['0', '2'] = .lt := by decide
example : cmpBuildId ['0', '2'] ['0', '0', '2'] = .lt := by decide
example : cmpBuildId ['0', '0', '2'] ['1', '0'] = .lt := by decide

/-- Comparison of build metadata lists: absence sorts first. -/
def cmpBuild : List (List Char) → List (List Char) → Ordering
  | [], [] => .eq
  | [], _ :: _ => .lt
  | _ :: _, [] => .gt
  | a, b => cmpList cmpBuildId a b

/-- Total comparison of versions, modelling `Ord` of `semver::Version`
(`latest.cmp(&current)` in `run`): numeric triple, then pre-release
precedence, then build metadata as a tie-breaker. -/
def compareVersion (a b : Version) : Ordering :=
  (compare a.major b.major).then ((compare a.minor b.minor).then
    ((compare a.patch b.patch).then ((cmpPre a.pre b.pre).then (cmpBuild a.build b.build))))

example : compareVersion ⟨1, 3, 0, [], []⟩ ⟨1, 2, 0, [], []⟩ = .gt := by decide
example : compareVersion ⟨1, 2, 0, [], []⟩ ⟨1, 2, 0, [], []⟩ = .eq := by decide
example : compareVersion ⟨1, 2, 0, [], []⟩ ⟨1, 3, 0, [], []⟩ = .lt := by decide
example : compareVersion ⟨1, 2, 0, [PreId.num 1], []⟩ ⟨1, 2, 0, [], []⟩ = .lt := by decide
example : compareVersion ⟨1, 0, 0, [], [['0', '0']]⟩ ⟨1, 0, 0, [], [['1']]⟩ = .lt := by decide
example : compareVersion ⟨1, 0, 0, [], [['2']]⟩ ⟨1, 0, 0, [], [['0', '1']]⟩ = .gt := by decide

/-- Errors, modelling `anyhow::Error`: a base message, possibly wrapped in
layers of context (`Context::context` / `with_context`). -/
inductive Err
  | msg : String → Err
  | ctx : String → Err → Err
deriving DecidableEq

deriving instance DecidableEq for Except

/-- Path of the persisted version marker (`VERSION` in the source). -/
def VERSION_PATH : String := "/opt/neovim/current_version"

/-- Path of the installed artifact (`APP_PATH` in the source). -/
def APP_PATH : String := "/opt/neovim/nvim.appimage"

/-- The content type the asset scan looks for. -/
def APPIMAGE_MIME : List Char := ("application/vnd.appimage").data

/-- The `gen_ctx!` macro: the context message attached to filesystem accesses.
(The source quotes the path; the quotes are dropped here.) -/
def gen_ctx (path : String) : String := "Failed to access " ++ path

/-- The version store read (`get_current`). The marker file is modelled as
`Option (List Char)`: `none` means the read fails (an I/O error), `some s`
means the file holds exactly `s`. With `read_file = false` the marker is
never consulted and the sentinel string is parsed instead. -/
def get_current (read_file : Bool) (marker : Option (List Char)) : Except Err Version :=
  if read_file then
    match marker with
    | none => .error (.ctx (gen_ctx VERSION_PATH) (.msg ("io error")))
    | some s =>
      match parseVersion s with
      | some v => .ok v
      | none => .error (.ctx ("Failed to parse current nvim version") (.msg ("parse error")))
  else
    match parseVersion (("0.0.0").data) with
    | some v => .ok v
    | none => .error (.ctx ("Failed to parse current nvim version") (.msg ("parse error")))

/-- One piece returned by Rust `str::split_inclusive('\n')`: maximal chunks
each ending with the separator, except possibly the last. -/
def splitInclusive (c : Char) : List Char → List (List Char)
  | [] => []
  | x :: xs =>
    if x = c then [x] :: splitInclusive c xs
    else
      match splitInclusive c xs with
      | [] => [[x]]
      | h :: t => (x :: h) :: t

/-- Strip one trailing newline, and a carriage return directly before it,
as Rust `str::lines` does on each piece. -/
def stripNewline (l : List Char) : List Char :=
  if l.getLast? = some '\n' then
    if l.dropLast.getLast? = some '\r' then l.dropLast.dropLast else l.dropLast
  else l

/-- Rust `str::lines`. -/
def linesRust (l : List Char) : List (List Char) :=
  (splitInclusive '\n' l).map stripNewline

example : linesRust (("a\nbc\n\nd").data) = [['a'], ['b', 'c'], [], ['d']] := by decide
example : linesRust (("a\r\nb\n").data) = [['a'], ['b']] := by decide
example : linesRust [] = [] := by decide

/-- One asset entry of the release feed response. -/
structure NvimAsset where
  content_type : List Char
  browser_download_url : List Char
deriving DecidableEq

/-- The release feed response shape the program deserializes. -/
structure NvimResponse where
  assets : List NvimAsset
  body : List Char
deriving DecidableEq

/-- Rust `str::strip_prefix(char)`: the remainder when the text starts with
the given character. -/
def stripPrefixChar (c : Char) : List Char → Option (List Char)
  | [] => none
  | x :: xs => if x = c then some xs else none

/-- Version extraction from the feed body (`get_latest`, first pipeline):
second line, second space-separated segment, strip the `v` prefix, parse. -/
def extractVersion (body : List Char) : Except Err Version :=
  match (linesRust body)[1]? with
  | none => .error (.msg ("Could not get second line of body"))
  | some line =>
    match (splitOnChar ' ' line)[1]? with
    | none => .error (.msg ("Could not get second segment of second line of body"))
    | some seg =>
      match stripPrefixChar 'v' seg with
      | some rest =>
        match parseVersion rest with
        | some v => .ok v
        | none => .error (.ctx ("Failed to parse version from body") (.msg ("parse error")))
      | none => .error (.msg ("Could not strip v from segment"))

/-- Asset selection (`get_latest`, second pipeline): the first asset whose
content type is exactly the AppImage MIME marker. -/
def selectAsset (assets : List NvimAsset) : Option NvimAsset :=
  assets.find? (fun a => decide (a.content_type = APPIMAGE_MIME))

/-- Scheme check modelling `reqwest::Url` (the url crate): an absolute URL
must begin with a nonempty scheme — a letter followed by letters, digits,
`+`, `-` or `.` — and a colon. Everything after the colon is accepted; this
under-approximates the crate's later checks, which no claim depends on. -/
def urlParse (s : List Char) : Option (List Char) :=
  match breakOnChar ':' s with
  | (scheme, some _) =>
    match scheme with
    | [] => none
    | c :: cs =>
      if isAlpha c && (c :: cs).all (fun d => isAlpha d || isDigit d || d = '+' || d = '-' || d = '.')
      then some s else none
  | (_, none) => none

example : urlParse (("https://example.com/nvim.appimage").data)
    = some (("https://example.com/nvim.appimage").data) := by decide
example : urlParse [] = none := by decide

/-- The release feed client (`get_latest`). The HTTP GET plus JSON decode is
modelled by the `feed` parameter: its errors (already wrapped in the
request/conversion contexts) propagate unchanged. -/
def get_latest (feed : Except Err NvimResponse) : Except Err (Version × List Char) :=
  match feed with
  | .error e => .error e
  | .ok res =>
    match extractVersion res.body with
    | .error e => .error e
    | .ok v =>
      match selectAsset res.assets with
      | none => .error (.msg ("Could not find correct asset"))
      | some a =>
        match urlParse a.browser_download_url with
        | none => .error (.ctx ("Failed to parse Url from JSON") (.msg ("url parse error")))
        | some u => .ok (v, u)

/-- One event of the download byte stream: a failed chunk read, or a chunk of
bytes together with whether writing it to the destination file succeeds. -/
inductive ChunkEv
  | readErr : Err → ChunkEv
  | chunk : List Nat → Bool → ChunkEv
deriving DecidableEq

/-- The download GET response: its reported content length (if any) and the
stream of chunk events. -/
structure DownResp where
  contentLength : Option Nat
  chunks : List ChunkEv
deriving DecidableEq

/-- The destination file: its bytes and its permission bits. -/
structure FileSt where
  content : List Nat
  mode : Nat
deriving DecidableEq

/-- Writing a chunk at a byte offset of an open file: bytes at the offset are
overwritten in place; any bytes beyond the written range are kept. -/
def writeChunk (content : List Nat) (pos : Nat) (bytes : List Nat) : List Nat :=
  content.take pos ++ bytes ++ content.drop (pos + bytes.length)

/-- The `while let` chunk loop of `do_upgrade`: consume stream events,
writing each chunk at the current offset and reporting
`min (downloaded + chunk.len) total` to the progress bar after each write.
Returns the final file bytes, the list of reported positions and the result.
A failed write leaves the modelled bytes unchanged (the partially written
state of a failed `write_all` is not observable by any claim). -/
def chunkLoop : List ChunkEv → List Nat → Nat → Nat → Nat →
    List Nat × List Nat × Except Err Unit
  | [], content, _, _, _ => (content, [], .ok ())
  | ev :: rest, content, pos, downloaded, total =>
    match ev with
    | .readErr e => (content, [], .error (.ctx ("Error while downloading nvim.appimage") e))
    | .chunk bytes wok =>
      if wok then
        match chunkLoop rest (writeChunk content pos bytes) (pos + bytes.length)
            (min (downloaded + bytes.length) total) total with
        | (c2, reps, r) => (c2, min (downloaded + bytes.length) total :: reps, r)
      else (content, [], .error (.ctx ("Error while writing to " ++ APP_PATH) (.msg ("io error"))))

/-- Outcomes of the two fallible filesystem calls after the stream is
drained: `file.metadata()` and `file.set_permissions(...)`. -/
structure InstallEnv where
  metaOk : Bool
  permsOk : Bool
deriving DecidableEq

/-- The installer (`do_upgrade`), given the outcome of the download GET and
the prior state of the destination file. The open uses
`create(true).write(true)` — create-or-open-without-truncation — so a
pre-existing file keeps its bytes beyond what the stream overwrites; a newly
created file starts empty with mode `0o644`. On success the permission bits
are set to `0o755`. -/
def do_upgrade (download : Except Err DownResp) (ienv : InstallEnv) (app : Option FileSt) :
    Option FileSt × List Nat × Except Err Unit :=
  match download with
  | .error e => (app, [], .error (.ctx ("Download GET request failed") e))
  | .ok resp =>
    match resp.contentLength with
    | none => (app, [], .error (.msg ("Failed to get size of response body.")))
    | some total =>
      match app.getD { content := [], mode := 0o644 } with
      | f0 =>
        match chunkLoop resp.chunks f0.content 0 0 total with
        | (c2, reps, .error e) => (some { f0 with content := c2 }, reps, .error e)
        | (c2, reps, .ok _) =>
          if ienv.metaOk then
            if ienv.permsOk then (some { content := c2, mode := 0o755 }, reps, .ok ())
            else (some { f0 with content := c2 }, reps,
              .error (.ctx ("Failed to set file permissions for " ++ APP_PATH) (.msg ("io error"))))
          else (some { f0 with content := c2 }, reps,
            .error (.ctx ("Could not get metadata from " ++ APP_PATH) (.msg ("io error"))))

/-- Terminal success outcomes of a run. -/
inductive Outcome
  | upToDate
  | done
deriving DecidableEq

/-- The filesystem state the program touches: the version marker file and the
destination artifact file. -/
structure Fs where
  marker : Option (List Char)
  app : Option FileSt
deriving DecidableEq

/-- The run environment: outcomes of the external calls — the feed GET+decode,
the download GET keyed by requested URL, the post-stream filesystem calls,
and whether the marker write succeeds. -/
structure Env where
  feed : Except Err NvimResponse
  download : List Char → Except Err DownResp
  install : InstallEnv
  markerWriteOk : Bool

/-- Observable result of a run: final filesystem state, the download URLs the
installer was invoked on, the progress positions reported, and the result. -/
structure RunOut where
  fs : Fs
  installCalls : List (List Char)
  progress : List Nat
  result : Except Err Outcome
deriving DecidableEq

/-- The orchestrator (`run`). The `try_async_spawn!` join of `get_current`
and `get_latest` is modelled by combining both completed results: both must
succeed for the run to proceed, and a failure of either becomes the run's
result (with the version-read error taken first, matching the macro's tuple
order). On `Greater` the installer runs against the latest release's URL and
only a fully successful install is followed by the marker write. -/
def run (read_file : Bool) (env : Env) (fs0 : Fs) : RunOut :=
  match get_current read_file fs0.marker with
  | .error e => ⟨fs0, [], [], .error e⟩
  | .ok current =>
    match get_latest env.feed with
    | .error e => ⟨fs0, [], [], .error e⟩
    | .ok (latest, down_url) =>
      match compareVersion latest current with
      | .eq => ⟨fs0, [], [], .ok .upToDate⟩
      | .gt =>
        match do_upgrade (env.download down_url) env.install fs0.app with
        | (app2, reps, .error e) => ⟨{ marker := fs0.marker, app := app2 }, [down_url], reps, .error e⟩
        | (app2, reps, .ok _) =>
          if env.markerWriteOk then
            ⟨{ marker := some (renderVersion latest), app := app2 }, [down_url], reps, .ok .done⟩
          else
            ⟨{ marker := fs0.marker, app := app2 }, [down_url], reps,
              .error (.ctx ("Failed to write new version to " ++ VERSION_PATH) (.msg ("io error")))⟩
      | .lt => ⟨fs0, [], [], .error (.msg ("How did you get a newer version than the latest?"))⟩

/-- The marker write performed on a successful upgrade
(`fs::write(VERSION, latest.to_string())`): the file is replaced by the
canonical rendering of the version. -/
def writeCurrent (v : Version) (fs : Fs) : Fs :=
  { fs with marker := some (renderVersion v) }

example :
    run true
      { feed := .ok ⟨[⟨APPIMAGE_MIME, ("https://a.b/n").data⟩], ("x\nNVIM v1.3.0").data⟩,
        download := fun _ => .ok ⟨some 2, [ChunkEv.chunk [7, 7] true]⟩,
        install := ⟨true, true⟩, markerWriteOk := true }
      { marker := some (("1.2.0").data), app := none } =
    ⟨⟨some (("1.3.0").data), some ⟨[7, 7], 0o755⟩⟩, [("https://a.b/n").data], [2], .ok .done⟩ := by
  decide

/-! ### Decimal rendering round trip -/

lemma digitChar_toNat {d : Nat} (h : d < 10) : (digitChar d).toNat = 48 + d := by
  interval_cases d <;> decide

lemma isDigit_digitChar {d : Nat} (h : d < 10) : isDigit (digitChar d) = true := by
  interval_cases d <;> decide

lemma digitChar_ne_zero {d : Nat} (h0 : 0 < d) (h : d < 10) : digitChar d ≠ '0' := by
  interval_cases d <;> decide

lemma natToCharsAux_zero : ∀ f, natToCharsAux f 0 = []
  | 0 => rfl
  | f + 1 => by simp [natToCharsAux]

lemma charsVal_append (a : List Char) (c : Char) :
    charsVal (a ++ [c]) = 10 * charsVal a + (c.toNat - 48) := by
  simp [charsVal, List.foldl_append]

lemma natToCharsAux_spec :
    ∀ n, 0 < n → ∀ f, n ≤ f →
      (natToCharsAux f n).all isDigit = true ∧
      charsVal (natToCharsAux f n) = n ∧
      natToCharsAux f n ≠ [] ∧
      (natToCharsAux f n).head? ≠ some '0' := by
  intro n
  induction n using Nat.strong_induction_on with
  | _ n ih =>
    intro hpos f hf
    obtain ⟨f, rfl⟩ : ∃ f2, f = f2 + 1 := ⟨f - 1, by omega⟩
    rw [natToCharsAux, if_neg (by omega)]
    by_cases h10 : n < 10
    · have hdiv : n / 10 = 0 := Nat.div_eq_of_lt h10
      have hmod : n % 10 = n := Nat.mod_eq_of_lt h10
      rw [hdiv, natToCharsAux_zero, hmod]
      refine ⟨by simp [isDigit_digitChar h10], ?_, by simp, ?_⟩
      · rw [charsVal_append, digitChar_toNat h10]
        simp [charsVal]
      · simpa using digitChar_ne_zero hpos h10
    · have hdp : 0 < n / 10 := Nat.div_pos (by omega) (by omega)
      have hlt : n / 10 < n := Nat.div_lt_self hpos (by omega)
      obtain ⟨ha, hv, hne, hh⟩ := ih (n / 10) hlt hdp f (by omega)
      have hm : n % 10 < 10 := Nat.mod_lt _ (by omega)
      refine ⟨?_, ?_, by simp, ?_⟩
      · simp [List.all_append, ha, isDigit_digitChar hm]
      · rw [charsVal_append, hv, digitChar_toNat hm]
        omega
      · obtain ⟨x, xs, hx⟩ := List.exists_cons_of_ne_nil hne
        rw [hx]
        rw [hx] at hh
        simpa using hh

lemma natToChars_all_isDigit (n : Nat) : (natToChars n).all isDigit = true := by
  by_cases h : n = 0
  · subst h; decide
  · rw [natToChars, if_neg h]
    exact (natToCharsAux_spec n (by omega) n le_rfl).1

lemma natToChars_ne_nil (n : Nat) : natToChars n ≠ [] := by
  by_cases h : n = 0
  · subst h; decide
  · rw [natToChars, if_neg h]
    exact (natToCharsAux_spec n (by omega) n le_rfl).2.2.1

lemma natToChars_head (n : Nat) :
    (natToChars n).head? = some '0' → natToChars n = ['0'] := by
  by_cases h : n = 0
  · subst h; intro _; decide
  · rw [natToChars, if_neg h]
    intro hc
    exact absurd hc (natToCharsAux_spec n (by omega) n le_rfl).2.2.2

lemma charsVal_natToChars (n : Nat) : charsVal (natToChars n) = n := by
  by_cases h : n = 0
  · subst h; decide
  · rw [natToChars, if_neg h]
    exact (natToCharsAux_spec n (by omega) n le_rfl).2.1

/-- Parsing the decimal rendering of any natural number recovers it. -/
lemma parseNum_natToChars (n : Nat) : parseNum (natToChars n) = some n := by
  rw [parseNum, if_pos ⟨natToChars_ne_nil n, natToChars_all_isDigit n, natToChars_head n⟩,
    charsVal_natToChars]

/-! ### Splitting and joining round trips -/

lemma all_not_mem {p : Char → Bool} {l : List Char} (h : l.all p = true) {c : Char}
    (hc : p c = false) : c ∉ l := by
  intro hm
  have := List.all_eq_true.mp h c hm
  rw [hc] at this
  exact Bool.false_ne_true this

lemma splitOnChar_ne_nil (c : Char) (l : List Char) : splitOnChar c l ≠ [] := by
  cases l with
  | nil => simp [splitOnChar]
  | cons x xs =>
    rw [splitOnChar]
    rcases h : splitOnChar c xs with _ | ⟨h0, t⟩
    · simp
    · by_cases hx : x = c <;> simp [hx]

lemma splitOnChar_append {c : Char} {a : List Char} (rest : List Char) (h : c ∉ a)
    {h0 : List Char} {t : List (List Char)} (hr : splitOnChar c rest = h0 :: t) :
    splitOnChar c (a ++ rest) = (a ++ h0) :: t := by
  induction a with
  | nil => simpa using hr
  | cons x xs ih =>
    have hx : x ≠ c := fun hxc => h (hxc ▸ List.mem_cons_self x xs)
    have hxs : c ∉ xs := fun hm => h (List.mem_cons_of_mem x hm)
    rw [List.cons_append, splitOnChar, ih hxs]
    simp [hx]

lemma splitOnChar_not_mem {c : Char} {a : List Char} (h : c ∉ a) :
    splitOnChar c a = [a] := by
  have := splitOnChar_append (c := c) [] h (show splitOnChar c [] = [] :: [] from rfl)
  simpa using this

lemma splitOnChar_joinSep {c : Char} :
    ∀ parts : List (List Char), parts ≠ [] → (∀ p ∈ parts, c ∉ p) →
      splitOnChar c (joinSep c parts) = parts
  | [], h, _ => absurd rfl h
  | [x], _, hall => by
    rw [joinSep]
    exact splitOnChar_not_mem (hall x (by simp))
  | x :: y :: r, _, hall => by
    rw [joinSep]
    have hrec : splitOnChar c (joinSep c (y :: r)) = y :: r :=
      splitOnChar_joinSep (y :: r) (by simp) (fun p hp => hall p (List.mem_cons_of_mem x hp))
    have hcons : splitOnChar c (c :: joinSep c (y :: r)) = [] :: y :: r := by
      rw [splitOnChar, hrec]
      simp
    have := splitOnChar_append _ (hall x (by simp)) hcons
    simpa using this

lemma breakOnChar_not_mem {c : Char} {l : List Char} (h : c ∉ l) :
    breakOnChar c l = (l, none) := by
  induction l with
  | nil => rfl
  | cons x xs ih =>
    have hx : x ≠ c := fun hxc => h (hxc ▸ List.mem_cons_self x xs)
    have hxs : c ∉ xs := fun hm => h (List.mem_cons_of_mem x hm)
    rw [breakOnChar, if_neg hx, ih hxs]

lemma breakOnChar_append {c : Char} {a : List Char} (b : List Char) (h : c ∉ a) :
    breakOnChar c (a ++ c :: b) = (a, some b) := by
  induction a with
  | nil => simp [breakOnChar]
  | cons x xs ih =>
    have hx : x ≠ c := fun hxc => h (hxc ▸ List.mem_cons_self x xs)
    have hxs : c ∉ xs := fun hm => h (List.mem_cons_of_mem x hm)
    rw [List.cons_append, breakOnChar, if_neg hx, ih hxs]

lemma mapOpt_map {f : α → Option β} {g : β → α} :
    ∀ l : List β, (∀ x ∈ l, f (g x) = some x) → mapOpt f (l.map g) = some l
  | [], _ => rfl
  | x :: xs, h => by
    rw [List.map_cons, mapOpt, h x (by simp), mapOpt_map xs (fun y hy => h y (by simp [hy]))]

lemma mem_joinSep {c d : Char} :
    ∀ parts : List (List Char), d ∈ joinSep c parts → d = c ∨ ∃ p ∈ parts, d ∈ p
  | [], h => by simp [joinSep] at h
  | [x], h => by
    rw [joinSep] at h
    exact Or.inr ⟨x, by simp, h⟩
  | x :: y :: r, h => by
    rw [joinSep] at h
    rcases List.mem_append.mp h with hx | hcons
    · exact Or.inr ⟨x, by simp, hx⟩
    · rcases List.mem_cons.mp hcons with hc | hrest
      · exact Or.inl hc
      · rcases mem_joinSep (y :: r) hrest with hc | ⟨p, hp, hdp⟩
        · exact Or.inl hc
        · exact Or.inr ⟨p, List.mem_cons_of_mem x hp, hdp⟩

lemma not_mem_joinSep {c d : Char} {parts : List (List Char)} (hd : d ≠ c)
    (hp : ∀ p ∈ parts, d ∉ p) : d ∉ joinSep c parts := by
  intro hm
  rcases mem_joinSep parts hm with h | ⟨p, hpm, hdm⟩
  · exact hd h
  · exact hp p hpm hdm

/-! ### Version rendering round trip -/

lemma identChar_of_digit {c : Char} (h : isDigit c = true) : isIdentChar c = true := by
  simp [isIdentChar, h]

lemma all_identChar_of_all_isDigit {l : List Char} (h : l.all isDigit = true) :
    l.all isIdentChar = true :=
  List.all_eq_true.mpr fun c hc => identChar_of_digit (List.all_eq_true.mp h c hc)

lemma not_mem_of_all_identChar {l : List Char} (h : l.all isIdentChar = true) :
    '.' ∉ l ∧ '+' ∉ l :=
  ⟨all_not_mem h (by decide), all_not_mem h (by decide)⟩

lemma not_mem_natToChars {n : Nat} {c : Char} (hc : isDigit c = false) :
    c ∉ natToChars n :=
  all_not_mem (natToChars_all_isDigit n) hc

lemma renderPreId_all_identChar {p : PreId} (h : p.validb = true) :
    (renderPreId p).all isIdentChar = true := by
  cases p with
  | num n => exact all_identChar_of_all_isDigit (natToChars_all_isDigit n)
  | alpha s =>
    rw [PreId.validb] at h
    simp only [Bool.and_eq_true] at h
    exact h.1.2

lemma ne_nil_of_not_isEmpty {l : List α} (h : l.isEmpty = false) : l ≠ [] := by
  intro hn
  subst hn
  simp at h

lemma parsePreId_render {p : PreId} (h : p.validb = true) :
    parsePreId (renderPreId p) = some p := by
  cases p with
  | num n =>
    rw [renderPreId, parsePreId,
      if_pos ⟨natToChars_ne_nil n, all_identChar_of_all_isDigit (natToChars_all_isDigit n)⟩,
      if_pos (natToChars_all_isDigit n), parseNum_natToChars]
    rfl
  | alpha s =>
    rw [PreId.validb] at h
    simp only [Bool.and_eq_true, Bool.not_eq_true'] at h
    obtain ⟨⟨hne0, hident⟩, hnd⟩ := h
    rw [renderPreId, parsePreId, if_pos ⟨ne_nil_of_not_isEmpty hne0, hident⟩,
      if_neg (by simp [hnd])]

lemma parseBuildId_self {b : List Char} (hne : b ≠ []) (hident : b.all isIdentChar = true) :
    parseBuildId b = some b := by
  rw [parseBuildId, if_pos ⟨hne, hident⟩]

lemma mapOpt_self {f : α → Option α} :
    ∀ l : List α, (∀ x ∈ l, f x = some x) → mapOpt f l = some l
  | [], _ => rfl
  | x :: xs, h => by
    rw [mapOpt, h x (by simp), mapOpt_self xs (fun y hy => h y (by simp [hy]))]

lemma parseCore_render (a b c : Nat) :
    parseCore (joinSep '.' [natToChars a, natToChars b, natToChars c]) = some (a, b, c) := by
  have hsplit : splitOnChar '.' (joinSep '.' [natToChars a, natToChars b, natToChars c])
      = [natToChars a, natToChars b, natToChars c] := by
    refine splitOnChar_joinSep _ (by simp) ?_
    intro p hp
    simp only [List.mem_cons, List.not_mem_nil, or_false] at hp
    rcases hp with rfl | rfl | rfl <;> exact not_mem_natToChars (by decide)
  rw [parseCore, hsplit]
  simp only [parseNum_natToChars]

lemma mem_renderPre {pre : List PreId} (hv : ∀ p ∈ pre, p.validb = true) {d : Char}
    (hd : d ∈ renderPre pre) : d = '-' ∨ d = '.' ∨ isIdentChar d = true := by
  cases pre with
  | nil => cases hd
  | cons p ps =>
    rw [renderPre] at hd
    rcases List.mem_cons.mp hd with rfl | hd
    · exact Or.inl rfl
    · rcases mem_joinSep _ hd with rfl | ⟨q, hq, hdq⟩
      · exact Or.inr (Or.inl rfl)
      · rcases List.mem_map.mp hq with ⟨r, hr, rfl⟩
        exact Or.inr (Or.inr (List.all_eq_true.mp
          (renderPreId_all_identChar (hv r hr)) d hdq))

lemma parsePre_joinSep {pre : List PreId} (hv : ∀ p ∈ pre, p.validb = true)
    (hne : pre ≠ []) :
    parsePre (some (joinSep '.' (pre.map renderPreId))) = some pre := by
  have hdot : ∀ q ∈ pre.map renderPreId, '.' ∉ q := by
    intro q hq
    rcases List.mem_map.mp hq with ⟨r, hr, rfl⟩
    exact (not_mem_of_all_identChar (renderPreId_all_identChar (hv r hr))).1
  rw [parsePre, splitOnChar_joinSep _ (by simpa using hne) hdot]
  exact mapOpt_map _ (fun q hq => parsePreId_render (hv q hq))

lemma parseBuild_joinSep {build : List (List Char)}
    (hv : ∀ b ∈ build, b ≠ [] ∧ b.all isIdentChar = true) (hne : build ≠ []) :
    parseBuild (some (joinSep '.' build)) = some build := by
  rw [parseBuild, splitOnChar_joinSep _ hne
    (fun q hq => (not_mem_of_all_identChar (hv q hq).2).1)]
  exact mapOpt_self _ (fun q hq => parseBuildId_self (hv q hq).1 (hv q hq).2)

/-- The right half the hyphen break yields on a rendered version. -/
def preSuffix : List PreId → Option (List Char)
  | [] => none
  | p :: ps => some (joinSep '.' ((p :: ps).map renderPreId))

/-- The right half the plus break yields on a rendered version. -/
def buildSuffix : List (List Char) → Option (List Char)
  | [] => none
  | b :: bs => some (joinSep '.' (b :: bs))

/-- Round trip: parsing the canonical rendering of a well-formed version
recovers exactly that version. -/
theorem parseVersion_renderVersion (v : Version) (h : v.validb = true) :
    parseVersion (renderVersion v) = some v := by
  obtain ⟨ma, mi, pa, pre, build⟩ := v
  rw [Version.validb] at h
  simp only [Bool.and_eq_true, List.all_eq_true] at h
  obtain ⟨hpre, hbuild⟩ := h
  have hbuild2 : ∀ b ∈ build, b ≠ [] ∧ b.all isIdentChar = true := by
    intro b hb
    have hx := hbuild b hb
    simp only [Bool.and_eq_true, Bool.not_eq_true'] at hx
    exact ⟨ne_nil_of_not_isEmpty hx.1, List.all_eq_true.mpr hx.2⟩
  have hpre2 : ∀ p ∈ pre, p.validb = true := hpre
  have hcore_mem : ∀ d ∈ joinSep '.' [natToChars ma, natToChars mi, natToChars pa],
      d = '.' ∨ isDigit d = true := by
    intro d hd
    rcases mem_joinSep _ hd with hd | ⟨p, hp, hdp⟩
    · exact Or.inl hd
    · simp only [List.mem_cons, List.not_mem_nil, or_false] at hp
      rcases hp with rfl | rfl | rfl <;>
        exact Or.inr (List.all_eq_true.mp (natToChars_all_isDigit _) d hdp)
  have hminus_core : '-' ∉ joinSep '.' [natToChars ma, natToChars mi, natToChars pa] := by
    intro hm
    rcases hcore_mem _ hm with h | h
    · cases h
    · cases h
  have hplus_left : '+' ∉
      joinSep '.' [natToChars ma, natToChars mi, natToChars pa] ++ renderPre pre := by
    intro hm
    rcases List.mem_append.mp hm with hm | hm
    · rcases hcore_mem _ hm with h | h
      · cases h
      · cases h
    · rcases mem_renderPre hpre2 hm with h | h | h
      · cases h
      · cases h
      · cases h
  have hminus : breakOnChar '-'
      (joinSep '.' [natToChars ma, natToChars mi, natToChars pa] ++ renderPre pre) =
      (joinSep '.' [natToChars ma, natToChars mi, natToChars pa], preSuffix pre) := by
    cases pre with
    | nil =>
      rw [renderPre, preSuffix]
      simpa using breakOnChar_not_mem hminus_core
    | cons p ps =>
      rw [renderPre, preSuffix]
      exact breakOnChar_append _ hminus_core
  have hplus : breakOnChar '+'
      ((joinSep '.' [natToChars ma, natToChars mi, natToChars pa] ++ renderPre pre)
        ++ renderBuild build) =
      (joinSep '.' [natToChars ma, natToChars mi, natToChars pa] ++ renderPre pre,
        buildSuffix build) := by
    cases build with
    | nil =>
      rw [renderBuild, buildSuffix]
      simpa using breakOnChar_not_mem hplus_left
    | cons b bs =>
      rw [renderBuild, buildSuffix]
      exact breakOnChar_append _ hplus_left
  have hparsePre : parsePre (preSuffix pre) = some pre := by
    cases pre with
    | nil => rfl
    | cons p ps =>
      rw [preSuffix]
      exact parsePre_joinSep hpre2 (by simp)
  have hparseBuild : parseBuild (buildSuffix build) = some build := by
    cases build with
    | nil => rfl
    | cons b bs =>
      rw [buildSuffix]
      exact parseBuild_joinSep hbuild2 (by simp)
  rw [parseVersion, renderVersion]
  rw [hplus]
  dsimp only
  rw [hminus]
  dsimp only
  rw [parseCore_render, hparsePre, hparseBuild]

/-! ### Progress reporting invariants -/

lemma chunkLoop_progress (evs : List ChunkEv) :
    ∀ content pos d total, d ≤ total →
      (∀ r ∈ (chunkLoop evs content pos d total).2.1, r ≤ total) ∧
      List.Chain' (· ≤ ·) (d :: (chunkLoop evs content pos d total).2.1) := by
  induction evs with
  | nil =>
    intro content pos d total hd
    simp [chunkLoop]
  | cons ev rest ih =>
    intro content pos d total hd
    cases ev with
    | readErr e => simp [chunkLoop]
    | chunk bytes wok =>
      cases wok with
      | false => simp [chunkLoop]
      | true =>
        have hmin : min (d + bytes.length) total ≤ total := Nat.min_le_right _ _
        have hd2 : d ≤ min (d + bytes.length) total := le_min (by omega) hd
        obtain ⟨h1, h2⟩ := ih (writeChunk content pos bytes) (pos + bytes.length)
          (min (d + bytes.length) total) total hmin
        rcases hcl : chunkLoop rest (writeChunk content pos bytes) (pos + bytes.length)
          (min (d + bytes.length) total) total with ⟨c2, reps, r⟩
        rw [hcl] at h1 h2
        rw [chunkLoop]
        simp only [if_pos rfl, hcl]
        dsimp only at h1 h2 ⊢
        refine ⟨?_, ?_⟩
        · intro x hx
          rcases List.mem_cons.mp hx with rfl | hx
          · exact hmin
          · exact h1 x hx
        · exact List.chain'_cons.mpr ⟨hd2, h2⟩

/-! ### Claim theorems -/

/-- C9: `readCurrent(false)` — `get_current` with `read_file = false` — always
returns the sentinel version `0.0.0`, never fails, and performs no storage
access (its result is the same whatever the marker file holds). -/
theorem claim9_readCurrent_false (m1 m2 : Option (List Char)) :
    get_current false m1 = .ok ⟨0, 0, 0, [], []⟩ ∧
    get_current false m1 = get_current false m2 :=
  ⟨rfl, rfl⟩

/-- C10: there is a feed response on which asset selection succeeds and body
version extraction succeeds, yet `get_latest` fails — with a URL-parse
context error — because the selected asset's download URL does not parse. -/
theorem claim10_url_parse_error :
    get_latest (.ok ⟨[⟨APPIMAGE_MIME, []⟩], ("x\nNVIM v1.2.3").data⟩)
      = .error (.ctx ("Failed to parse Url from JSON") (.msg ("url parse error"))) ∧
    selectAsset [⟨APPIMAGE_MIME, []⟩] = some ⟨APPIMAGE_MIME, []⟩ ∧
    extractVersion (("x\nNVIM v1.2.3").data) = .ok ⟨1, 2, 3, [], []⟩ := by
  refine ⟨by decide, by decide, by decide⟩

/-- C8: writing a well-formed version with `writeCurrent` and reading it back
with `readCurrent(true)` recovers exactly that version. -/
theorem claim8_roundtrip (v : Version) (fs : Fs) (h : v.validb = true) :
    get_current true (writeCurrent v fs).marker = .ok v := by
  simp [get_current, writeCurrent, parseVersion_renderVersion v h]

theorem claim8_witness :
    get_current true
        (writeCurrent ⟨1, 2, 3, [PreId.alpha ['r', 'c'], PreId.num 1], [['0', '0', '7']]⟩
          ⟨none, none⟩).marker
      = .ok ⟨1, 2, 3, [PreId.alpha ['r', 'c'], PreId.num 1], [['0', '0', '7']]⟩ :=
  claim8_roundtrip ⟨1, 2, 3, [PreId.alpha ['r', 'c'], PreId.num 1], [['0', '0', '7']]⟩
    ⟨none, none⟩ (by decide)

/-- C7: whenever the download response carries a content length, every value
the chunk loop reports to the progress bar is bounded by that total, and the
reported values are non-decreasing across chunks. -/
theorem claim7_progress (download : Except Err DownResp) (ienv : InstallEnv)
    (app : Option FileSt) (resp : DownResp) (total : Nat)
    (hd : download = .ok resp) (ht : resp.contentLength = some total) :
    (∀ r ∈ (do_upgrade download ienv app).2.1, r ≤ total) ∧
    List.Chain' (· ≤ ·) (do_upgrade download ienv app).2.1 := by
  subst hd
  obtain ⟨h1, h2⟩ := chunkLoop_progress resp.chunks
    (app.getD { content := [], mode := 420 }).content 0 0 total (Nat.zero_le _)
  have hrep : (do_upgrade (.ok resp) ienv app).2.1
      = (chunkLoop resp.chunks (app.getD { content := [], mode := 420 }).content 0 0 total).2.1 := by
    rcases hcl : chunkLoop resp.chunks (app.getD { content := [], mode := 420 }).content
      0 0 total with ⟨c2, reps, r⟩
    cases r with
    | error e => simp [do_upgrade, ht, hcl]
    | ok u =>
      cases u
      by_cases hm : ienv.metaOk = true <;> by_cases hp : ienv.permsOk = true <;>
        simp [do_upgrade, ht, hcl, hm, hp]
  rw [hrep]
  exact ⟨h1, h2.tail⟩

theorem claim7_witness :
    (∀ r ∈ (do_upgrade (.ok ⟨some 2, [ChunkEv.chunk [7, 7] true, ChunkEv.chunk [9] true]⟩)
        ⟨true, true⟩ none).2.1, r ≤ 2) ∧
    List.Chain' (· ≤ ·) (do_upgrade (.ok ⟨some 2, [ChunkEv.chunk [7, 7] true, ChunkEv.chunk [9] true]⟩)
        ⟨true, true⟩ none).2.1 :=
  claim7_progress _ _ _ _ _ rfl rfl

lemma find_first_match :
    ∀ (l1 : List NvimAsset) (a : NvimAsset) (l2 : List NvimAsset),
      a.content_type = APPIMAGE_MIME → (∀ b ∈ l1, b.content_type ≠ APPIMAGE_MIME) →
      selectAsset (l1 ++ a :: l2) = some a
  | [], a, l2, hm, _ => by
    rw [List.nil_append, selectAsset]
    exact List.find?_cons_of_pos _ (by simp [hm])
  | b :: bs, a, l2, hm, hp => by
    rw [List.cons_append, selectAsset,
      List.find?_cons_of_neg _ (by simp only [decide_eq_true_eq]; exact hp b (by simp))]
    exact find_first_match bs a l2 hm (fun x hx => hp x (by simp [hx]))

/-- C5: asset selection scans the list in order and yields the first asset
whose content type is exactly the AppImage marker; with no match it yields
nothing and `get_latest` fails with the not-found error. -/
theorem claim5_asset_selection (assets : List NvimAsset) :
    ((∀ a ∈ assets, a.content_type ≠ APPIMAGE_MIME) → selectAsset assets = none) ∧
    (∀ l1 a l2, assets = l1 ++ a :: l2 → a.content_type = APPIMAGE_MIME →
      (∀ b ∈ l1, b.content_type ≠ APPIMAGE_MIME) → selectAsset assets = some a) ∧
    (∀ body v, extractVersion body = .ok v → selectAsset assets = none →
      get_latest (.ok ⟨assets, body⟩) = .error (.msg ("Could not find correct asset"))) := by
  refine ⟨?_, ?_, ?_⟩
  · intro h
    rw [selectAsset, List.find?_eq_none]
    intro a ha
    simp only [decide_eq_true_eq]
    exact h a ha
  · intro l1 a l2 heq hm hp
    subst heq
    exact find_first_match l1 a l2 hm hp
  · intro body v hev hsel
    simp [get_latest, hev, hsel]

theorem claim5_witness :
    selectAsset [⟨("text/plain").data, ("u1").data⟩, ⟨APPIMAGE_MIME, ("u2").data⟩,
        ⟨APPIMAGE_MIME, ("u3").data⟩]
      = some ⟨APPIMAGE_MIME, ("u2").data⟩ :=
  (claim5_asset_selection _).2.1 [⟨("text/plain").data, ("u1").data⟩]
    ⟨APPIMAGE_MIME, ("u2").data⟩ [⟨APPIMAGE_MIME, ("u3").data⟩] rfl rfl (by decide)

/-- C6: the joined step requires both the version read and the feed fetch to
succeed; if the version read fails the run fails with its error, and if the
feed fetch fails while the version read completed, the completed version is
discarded and the run fails with the feed error — in either case with no
install call, no progress, and the filesystem untouched. -/
theorem claim6_join_failure (read_file : Bool) (env : Env) (fs0 : Fs) :
    (∀ e, get_current read_file fs0.marker = .error e →
      run read_file env fs0 = ⟨fs0, [], [], .error e⟩) ∧
    (∀ v e, get_current read_file fs0.marker = .ok v → get_latest env.feed = .error e →
      run read_file env fs0 = ⟨fs0, [], [], .error e⟩) := by
  constructor
  · intro e he
    simp [run, he]
  · intro v e hv hl
    simp [run, hv, hl]

theorem claim6_witness :
    run true
      { feed := .error (.msg ("boom")), download := fun _ => .error (.msg ("x")),
        install := ⟨true, true⟩, markerWriteOk := true }
      { marker := some (("1.2.0").data), app := none } =
    ⟨⟨some (("1.2.0").data), none⟩, [], [], .error (.msg ("boom"))⟩ :=
  (claim6_join_failure true
    { feed := .error (.msg ("boom")), download := fun _ => .error (.msg ("x")),
      install := ⟨true, true⟩, markerWriteOk := true }
    { marker := some (("1.2.0").data), app := none }).2
    ⟨1, 2, 0, [], []⟩ (.msg ("boom")) (by decide) rfl

/-- C1: once both versions are obtained, the run's outcome is determined by
the semver comparison alone — equality yields UpToDate with no install call
and no filesystem change; a newer latest invokes the installer on exactly the
latest release's URL and (when install and the marker write succeed) records
the latest version in the marker; an older latest fails with the
inconsistent-state error, with no install call and the marker unchanged. -/
theorem claim1_run_trichotomy (read_file : Bool) (env : Env) (fs0 : Fs)
    (current latest : Version) (url : List Char)
    (hc : get_current read_file fs0.marker = .ok current)
    (hl : get_latest env.feed = .ok (latest, url)) :
    (compareVersion latest current = .eq →
      run read_file env fs0 = ⟨fs0, [], [], .ok .upToDate⟩) ∧
    (compareVersion latest current = .gt →
      (run read_file env fs0).installCalls = [url] ∧
      (∀ app2 reps,
        do_upgrade (env.download url) env.install fs0.app = (app2, reps, .ok ()) →
        env.markerWriteOk = true →
        run read_file env fs0 =
          ⟨⟨some (renderVersion latest), app2⟩, [url], reps, .ok .done⟩)) ∧
    (compareVersion latest current = .lt →
      run read_file env fs0 =
        ⟨fs0, [], [], .error (.msg ("How did you get a newer version than the latest?"))⟩) := by
  refine ⟨?_, ?_, ?_⟩
  · intro heq
    simp [run, hc, hl, heq]
  · intro hgt
    constructor
    · rcases hdu : do_upgrade (env.download url) env.install fs0.app with ⟨app2, reps, r⟩
      cases r with
      | error e => simp [run, hc, hl, hgt, hdu]
      | ok u =>
        cases u
        by_cases hw : env.markerWriteOk = true <;> simp [run, hc, hl, hgt, hdu, hw]
    · intro app2 reps hdu hw
      simp [run, hc, hl, hgt, hdu, hw]
  · intro hlt
    simp [run, hc, hl, hlt]

theorem claim1_witness :
    run true
      { feed := .ok ⟨[⟨APPIMAGE_MIME, ("https://a.b/n").data⟩], ("x\nNVIM v1.3.0").data⟩,
        download := fun _ => .ok ⟨some 2, [ChunkEv.chunk [7, 7] true]⟩,
        install := ⟨true, true⟩, markerWriteOk := true }
      { marker := some (("1.2.0").data), app := none } =
    ⟨⟨some (renderVersion ⟨1, 3, 0, [], []⟩), some ⟨[7, 7], 493⟩⟩,
      [("https://a.b/n").data], [2], .ok .done⟩ :=
  ((claim1_run_trichotomy true
    { feed := .ok ⟨[⟨APPIMAGE_MIME, ("https://a.b/n").data⟩], ("x\nNVIM v1.3.0").data⟩,
      download := fun _ => .ok ⟨some 2, [ChunkEv.chunk [7, 7] true]⟩,
      install := ⟨true, true⟩, markerWriteOk := true }
    { marker := some (("1.2.0").data), app := none }
    ⟨1, 2, 0, [], []⟩ ⟨1, 3, 0, [], []⟩ (("https://a.b/n").data)
    (by decide) (by decide)).2.1 (by decide)).2
    (some ⟨[7, 7], 493⟩) [2] (by decide) rfl

/-- C2: when the versions are obtained and an upgrade is attempted, any
failure of the download or install leaves the version marker exactly as it
was and makes the run fail with that error: the marker write happens only
strictly after a fully successful install. -/
theorem claim2_marker_on_failure (read_file : Bool) (env : Env) (fs0 : Fs)
    (current latest : Version) (url : List Char) (e : Err)
    (hc : get_current read_file fs0.marker = .ok current)
    (hl : get_latest env.feed = .ok (latest, url))
    (hgt : compareVersion latest current = .gt)
    (hfail : (do_upgrade (env.download url) env.install fs0.app).2.2 = .error e) :
    (run read_file env fs0).fs.marker = fs0.marker ∧
    (run read_file env fs0).result = .error e := by
  rcases hdu : do_upgrade (env.download url) env.install fs0.app with ⟨app2, reps, r⟩
  rw [hdu] at hfail
  have hr : r = .error e := hfail
  subst hr
  constructor <;> simp [run, hc, hl, hgt, hdu]

theorem claim2_witness :
    (run true
      { feed := .ok ⟨[⟨APPIMAGE_MIME, ("https://a.b/n").data⟩], ("x\nNVIM v1.3.0").data⟩,
        download := fun _ => .ok ⟨some 9, [ChunkEv.readErr (.msg ("reset"))]⟩,
        install := ⟨true, true⟩, markerWriteOk := true }
      { marker := some (("1.2.0").data), app := none }).fs.marker
      = some (("1.2.0").data) ∧
    (run true
      { feed := .ok ⟨[⟨APPIMAGE_MIME, ("https://a.b/n").data⟩], ("x\nNVIM v1.3.0").data⟩,
        download := fun _ => .ok ⟨some 9, [ChunkEv.readErr (.msg ("reset"))]⟩,
        install := ⟨true, true⟩, markerWriteOk := true }
      { marker := some (("1.2.0").data), app := none }).result
      = .error (.ctx ("Error while downloading nvim.appimage") (.msg ("reset"))) :=
  claim2_marker_on_failure true
    { feed := .ok ⟨[⟨APPIMAGE_MIME, ("https://a.b/n").data⟩], ("x\nNVIM v1.3.0").data⟩,
      download := fun _ => .ok ⟨some 9, [ChunkEv.readErr (.msg ("reset"))]⟩,
      install := ⟨true, true⟩, markerWriteOk := true }
    { marker := some (("1.2.0").data), app := none }
    ⟨1, 2, 0, [], []⟩ ⟨1, 3, 0, [], []⟩ (("https://a.b/n").data)
    (.ctx ("Error while downloading nvim.appimage") (.msg ("reset")))
    (by decide) (by decide) (by decide) (by decide)

/-- C3: evaluation of the installer at a failing input. Every chunk of the
stream succeeds and the permissions are set to `0o755`, but because the open
is create-or-open without truncation, a pre-existing five-byte destination
file ends up five bytes long — not the two-byte sum of the chunk lengths:
the stale tail `[0, 0, 0]` survives after the written `[7, 7]`. -/
theorem claim3_truncate_missing :
    do_upgrade (.ok ⟨some 2, [ChunkEv.chunk [7, 7] true]⟩) ⟨true, true⟩
        (some ⟨[0, 0, 0, 0, 0], 420⟩)
      = (some ⟨[7, 7, 0, 0, 0], 493⟩, [2], .ok ()) ∧
    ¬ ([7, 7, 0, 0, 0] : List Nat).length = ([7, 7] : List Nat).length := by
  exact ⟨by decide, by decide⟩

/-- C4 counterexample: on a body whose second line is
`Release notes v1.2.3 blah`, the second space-separated segment is `notes`,
so extraction fails at the prefix-strip step instead of yielding `1.2.3`. -/
theorem claim4_counterexample :
    extractVersion (("first\nRelease notes v1.2.3 blah").data)
      = .error (.msg ("Could not strip v from segment")) ∧
    ¬ extractVersion (("first\nRelease notes v1.2.3 blah").data) = .ok ⟨1, 2, 3, [], []⟩ := by
  exact ⟨by decide, by decide⟩

/-- C4 (amended): version extraction takes the second line (failing with the
line error on fewer than two lines), splits it on single spaces and takes the
second segment (failing with the segment error on fewer than two segments),
strips the `v` prefix (failing with the strip error when the second segment
does not start with `v`), and parses the remainder (failing with the parse
context error otherwise); a second line whose second space-separated token is
`vX.Y.Z` — such as `NVIM vX.Y.Z blah` — yields version `X.Y.Z`. -/
theorem claim4_extraction_steps :
    (∀ body, linesRust body = [] →
      extractVersion body = .error (.msg ("Could not get second line of body"))) ∧
    (∀ body l, linesRust body = [l] →
      extractVersion body = .error (.msg ("Could not get second line of body"))) ∧
    (∀ body l1 l2 r t, linesRust body = l1 :: l2 :: r → splitOnChar ' ' l2 = [t] →
      extractVersion body =
        .error (.msg ("Could not get second segment of second line of body"))) ∧
    (∀ body l1 l2 r t1 t2 ts, linesRust body = l1 :: l2 :: r →
      splitOnChar ' ' l2 = t1 :: t2 :: ts →
      ((stripPrefixChar 'v' t2 = none →
        extractVersion body = .error (.msg ("Could not strip v from segment"))) ∧
      (∀ r2, stripPrefixChar 'v' t2 = some r2 →
        (parseVersion r2 = none →
          extractVersion body =
            .error (.ctx ("Failed to parse version from body") (.msg ("parse error")))) ∧
        (∀ v, parseVersion r2 = some v → extractVersion body = .ok v)))) ∧
    extractVersion (("Example release\nNVIM v1.2.3 blah").data) = .ok ⟨1, 2, 3, [], []⟩ := by
  refine ⟨?_, ?_, ?_, ?_, by decide⟩
  · intro body h
    simp [extractVersion, h]
  · intro body l h
    simp [extractVersion, h]
  · intro body l1 l2 r t hl hs
    simp [extractVersion, hl, hs]
  · intro body l1 l2 r t1 t2 ts hl hs
    refine ⟨?_, ?_⟩
    · intro hn
      simp [extractVersion, hl, hs, hn]
    · intro r2 hr2
      refine ⟨?_, ?_⟩
      · intro hp
        simp [extractVersion, hl, hs, hr2, hp]
      · intro v hp
        simp [extractVersion, hl, hs, hr2, hp]

theorem claim4_witness :
    extractVersion [] = .error (.msg ("Could not get second line of body")) :=
  claim4_extraction_steps.1 [] (by decide)

end NvimUpgrade
